import Mathlib

/-!
Shallow embedding of the bluesky plan-generation core (src/bluesky/scans.py)
and of the shell helpers (src/bluesky/magics.py), together with theorems
settling the frozen claims about them.

Conventions of the embedding:
* devices are identified by their names (String);
* numeric values are exact rationals; the log-spaced step lists of LogAscan
  live in the reals because they involve powers of ten;
* a generator that consumes responses is modelled as a function of an
  explicit response stream, and the adaptive while-loop is modelled with a
  fuel parameter: a run that returns none did not finish within the fuel.
-/

namespace Bluesky

/-- Command vocabulary of the message protocol (run_engine Msg commands used
by scans.py). -/
inductive Command where
  | logbook
  | configure
  | deconfigure
  | checkpoint
  | create
  | set
  | trigger
  | wait
  | read
  | save
  | sleep
deriving DecidableEq

/-- Positional argument values carried by a message. -/
inductive MVal where
  | str (s : String)
  | rat (q : ℚ)
deriving DecidableEq

/-- A message as produced by a plan: command, optional target device, the
positional arguments, and the optional block_group keyword. -/
structure Msg where
  cmd : Command
  obj : Option String
  args : List MVal
  block_group : Option String
deriving DecidableEq

def cfgMsg (d : String) : Msg := ⟨Command.configure, some d, [], none⟩

def deconfigMsg (d : String) : Msg := ⟨Command.deconfigure, some d, [], none⟩

def checkpointMsg : Msg := ⟨Command.checkpoint, none, [], none⟩

def createMsg : Msg := ⟨Command.create, none, [], none⟩

def saveMsg : Msg := ⟨Command.save, none, [], none⟩

def readMsg (d : String) : Msg := ⟨Command.read, some d, [], none⟩

def waitMsg (g : String) : Msg := ⟨Command.wait, none, [MVal.str g], none⟩

def sleepMsg (t : ℚ) : Msg := ⟨Command.sleep, none, [MVal.rat t], none⟩

/-- The logbook provenance message that Scan.__iter__ emits first; the
payload is abstracted to the class name, which is all the claims need. -/
def logMsg (cls : String) : Msg := ⟨Command.logbook, none, [MVal.str cls], none⟩

/-- Msg(set, motor, value, block_group=g), as emitted by Scan1D._gen. -/
def setMsgTagged (m : String) (v : ℚ) (g : String) : Msg :=
  ⟨Command.set, some m, [MVal.rat v], some g⟩

/-- Msg(set, motor, value) with no block_group, as emitted by
_AdaptiveScan._gen. -/
def setMsgUntagged (m : String) (v : ℚ) : Msg :=
  ⟨Command.set, some m, [MVal.rat v], none⟩

def triggerMsg (d : String) (g : String) : Msg :=
  ⟨Command.trigger, some d, [], some g⟩

/-- Count._gen: configure every detector, then num cycles of
checkpoint / create / trigger / wait / read / save / sleep, then
deconfigure every detector. -/
def countGen (dets : List String) (num : ℕ) (delay : ℚ) : List Msg :=
  dets.map cfgMsg
    ++ (List.range num).flatMap (fun _ =>
        [checkpointMsg, createMsg]
          ++ dets.map (fun d => triggerMsg d "A")
          ++ dets.map (fun _ => waitMsg "A")
          ++ dets.map readMsg
          ++ [saveMsg, sleepMsg delay])
    ++ dets.map deconfigMsg

/-- One per-step block of Scan1D._gen. -/
def scan1DStepMsgs (motor : String) (dets : List String) (step : ℚ) : List Msg :=
  [checkpointMsg, setMsgTagged motor step "A", waitMsg "A", createMsg, readMsg motor]
    ++ dets.map (fun d => triggerMsg d "B")
    ++ dets.map (fun _ => waitMsg "B")
    ++ dets.map readMsg
    ++ [saveMsg]

/-- Scan1D._gen for a given concrete step list. -/
def scan1DGen (motor : String) (dets : List String) (steps : List ℚ) : List Msg :=
  dets.map cfgMsg ++ steps.flatMap (scan1DStepMsgs motor dets) ++ dets.map deconfigMsg

/-- Plan iteration of Ascan: logbook message, then Scan1D._gen on the
caller-supplied steps used verbatim. -/
def ascanPlanMsgs (motor : String) (dets : List String) (steps : List ℚ) : List Msg :=
  logMsg "Ascan" :: scan1DGen motor dets steps

/-- Dscan._gen consumes the response of an initial read of the motor (a
mapping field-name to value, modelled as an association list).  More than
one field raises NotImplementedError; an empty mapping would fail the
single-element unpacking (ValueError); otherwise the caller-supplied steps
are shifted by the current value and control delegates to Scan1D._gen.
The result is the emitted messages paired with the exception, if any. -/
def dscanPlanMsgs (motor : String) (dets : List String) (steps : List ℚ)
    (reading : List (String × ℚ)) : List Msg × Option String :=
  let pre := [logMsg "Dscan", readMsg motor]
  if 1 < reading.length then (pre, some "NotImplementedError")
  else
    match reading with
    | [kv] => (pre ++ scan1DGen motor dets (steps.map (fun x => x + kv.2)), none)
    | _ => (pre, some "ValueError")

/-- np.linspace: num points from start to stop inclusive.  numpy returns
the singleton [start] for num = 1 and the empty array for num = 0. -/
def linspace (start stop : ℚ) (num : ℕ) : List ℚ :=
  if num = 1 then [start]
  else (List.range num).map
    (fun i : ℕ => start + (stop - start) * (i : ℚ) / ((num : ℚ) - 1))

/-- np.logspace: ten raised to each point of np.linspace(start, stop, num). -/
noncomputable def logspace (start stop : ℚ) (num : ℕ) : List ℝ :=
  (linspace start stop num).map (fun x : ℚ => (10 : ℝ) ^ ((x : ℝ)))

/-- Parameters of _AdaptiveScan._gen that drive the numeric loop.  The
stop field is the effective loop bound, i.e. self.stop + offset. -/
structure AParams where
  min_step : ℚ
  max_step : ℚ
  target_delta : ℚ
  stop : ℚ
deriving DecidableEq

/-- Numeric state of the adaptive while-loop. -/
structure AState where
  next_pos : ℚ
  step : ℚ
  past_I : Option ℚ
  cur_I : Option ℚ
deriving DecidableEq

/-- The readings of one loop iteration update cur_I: each detector read is
either a mapping containing target_field (some value) or not (none); the
last detector whose reading contains the field wins, and cur_I keeps its
old value when no reading contains it. -/
def newCurI (c : Option ℚ) (rs : List (Option ℚ)) : Option ℚ :=
  rs.foldl (fun acc r => match r with | some v => some v | none => acc) c

/-- np.clip(x, lo, hi). -/
def clip (x lo hi : ℚ) : ℚ := min (max x lo) hi

/-- The new_step computation of _AdaptiveScan._gen: slope = |cur - past| /
step; a nonzero slope yields clip(target_delta / slope, min_step,
max_step), a zero slope yields the flat-signal growth fallback
min(step * 1.1, max_step). -/
def newStepVal (p : AParams) (step : ℚ) (cur : Option ℚ) (past : ℚ) : ℚ :=
  if |cur.getD 0 - past| / step ≠ 0 then
    clip (p.target_delta / (|cur.getD 0 - past| / step)) p.min_step p.max_step
  else min (step * (11 / 10)) p.max_step

/-- One iteration of the adaptive while-loop body after the measurements:
on the first iteration (past_I is None) record the reference and advance;
afterwards compute new_step and either backtrack (next_pos -= step, step =
new_step, reference kept) or accept (past_I = cur_I, step smoothed), and
in both cases advance next_pos by the updated step. -/
def adaptiveStep (p : AParams) (rs : List (Option ℚ)) (s : AState) : AState :=
  match s.past_I with
  | none => ⟨s.next_pos + s.step, s.step, newCurI s.cur_I rs, newCurI s.cur_I rs⟩
  | some past =>
    if newStepVal p s.step (newCurI s.cur_I rs) past < s.step * (8 / 10) then
      ⟨s.next_pos - s.step + newStepVal p s.step (newCurI s.cur_I rs) past,
       newStepVal p s.step (newCurI s.cur_I rs) past, some past, newCurI s.cur_I rs⟩
    else
      ⟨s.next_pos +
        ((2 / 10) * newStepVal p s.step (newCurI s.cur_I rs) past + (8 / 10) * s.step),
       (2 / 10) * newStepVal p s.step (newCurI s.cur_I rs) past + (8 / 10) * s.step,
       newCurI s.cur_I rs, newCurI s.cur_I rs⟩

/-- Initial loop state: next_pos = start + offset and step =
(max_step - min_step) / 2, no reference yet. -/
def initAState (p : AParams) (start offset : ℚ) : AState :=
  ⟨start + offset, (p.max_step - p.min_step) / 2, none, none⟩

/-- States of the adaptive loop after each iteration, for a given stream
of per-iteration readings; once the guard next_pos < stop fails the state
freezes. -/
def adaptiveTrace (p : AParams) (resp : ℕ → List (Option ℚ)) (s0 : AState) : ℕ → AState
  | 0 => s0
  | n + 1 =>
    let s := adaptiveTrace p resp s0 n
    if s.next_pos < p.stop then adaptiveStep p (resp n) s else s

/-- Fuel-bounded run of the adaptive while-loop on states only: some final
state if the guard failed within the fuel, none otherwise.  The counter k
indexes the response stream. -/
def adaptiveLoop (p : AParams) (resp : ℕ → List (Option ℚ)) :
    ℕ → ℕ → AState → Option AState
  | 0, _, s => if s.next_pos < p.stop then none else some s
  | fuel + 1, k, s =>
    if s.next_pos < p.stop then
      adaptiveLoop p resp fuel (k + 1) (adaptiveStep p (resp k) s)
    else some s

/-- Messages of one iteration of the adaptive loop.  The set message
carries no block_group, exactly as in the source. -/
def adaptiveIterMsgs (motor : String) (dets : List String) (pos : ℚ) : List Msg :=
  [checkpointMsg, setMsgUntagged motor pos, waitMsg "A", createMsg, readMsg motor]
    ++ dets.map (fun d => triggerMsg d "B")
    ++ dets.map (fun _ => waitMsg "B")
    ++ dets.map readMsg
    ++ [saveMsg]

/-- Fuel-bounded message production of the adaptive while-loop, ending in
the deconfigure messages on normal exit. -/
def adaptiveMsgs (motor : String) (dets : List String) (p : AParams)
    (resp : ℕ → List (Option ℚ)) : ℕ → ℕ → AState → Option (List Msg)
  | 0, _, s => if s.next_pos < p.stop then none else some (dets.map deconfigMsg)
  | fuel + 1, k, s =>
    if s.next_pos < p.stop then
      Option.map (fun l => adaptiveIterMsgs motor dets s.next_pos ++ l)
        (adaptiveMsgs motor dets p resp fuel (k + 1) (adaptiveStep p (resp k) s))
    else some (dets.map deconfigMsg)

/-- _AdaptiveScan._gen: configure the detectors, run the loop, deconfigure
on exit. -/
def adaptiveGenMsgs (motor : String) (dets : List String) (p : AParams)
    (resp : ℕ → List (Option ℚ)) (fuel : ℕ) (s : AState) : Option (List Msg) :=
  Option.map (fun l => dets.map cfgMsg ++ l) (adaptiveMsgs motor dets p resp fuel 0 s)

/-- AdaptiveAscan plan iteration: logbook message then _AdaptiveScan._gen
with offset 0. -/
def adaptiveAscanPlanMsgs (motor : String) (dets : List String)
    (start stop min_step max_step target_delta : ℚ)
    (resp : ℕ → List (Option ℚ)) (fuel : ℕ) : Option (List Msg) :=
  Option.map (fun l => logMsg "AdaptiveAscan" :: l)
    (adaptiveGenMsgs motor dets ⟨min_step, max_step, target_delta, stop⟩ resp fuel
      (initAState ⟨min_step, max_step, target_delta, stop⟩ start 0))

/-- AdaptiveDscan plan iteration: logbook, blocking pre-read of the motor
with the same multi-field error as Dscan, then _AdaptiveScan._gen with the
read value as offset.  Result: messages (if the fuel sufficed) and the
exception, if any. -/
def adaptiveDscanPlanMsgs (motor : String) (dets : List String)
    (start stop min_step max_step target_delta : ℚ)
    (reading : List (String × ℚ)) (resp : ℕ → List (Option ℚ)) (fuel : ℕ) :
    Option (List Msg × Option String) :=
  let pre := [logMsg "AdaptiveDscan", readMsg motor]
  if 1 < reading.length then some (pre, some "NotImplementedError")
  else
    match reading with
    | [kv] =>
      Option.map (fun l => (pre ++ l, none))
        (adaptiveGenMsgs motor dets ⟨min_step, max_step, target_delta, stop + kv.2⟩
          resp fuel
          (initAState ⟨min_step, max_step, target_delta, stop + kv.2⟩ start kv.2))
    | _ => some (pre, some "ValueError")

/-- Round half to even on the integers, the tie-breaking rule of np.round. -/
def roundHalfEven (q : ℚ) : ℤ :=
  let f := ⌊q⌋
  let r := q - f
  if r < 1 / 2 then f
  else if 1 / 2 < r then f + 1
  else if Even f then f else f + 1

/-- np.round(q, decimals = d). -/
def npRound (q : ℚ) (d : ℕ) : ℚ := (roundHalfEven (q * 10 ^ d) : ℚ) / 10 ^ d

/-- A rendered table cell of the positioner report: either a rounded
number or literal text (an exception class name, or the empty string). -/
inductive Cell where
  | num (q : ℚ)
  | txt (s : String)
deriving DecidableEq

instance exceptDecEq {α β : Type} [DecidableEq α] [DecidableEq β] :
    DecidableEq (Except α β)
  | Except.error x, Except.error y =>
    if h : x = y then Decidable.isTrue (congrArg Except.error h)
    else Decidable.isFalse (fun hh => h (Except.error.inj hh))
  | Except.error _, Except.ok _ => Decidable.isFalse (fun hh => Except.noConfusion hh)
  | Except.ok _, Except.error _ => Decidable.isFalse (fun hh => Except.noConfusion hh)
  | Except.ok x, Except.ok y =>
    if h : x = y then Decidable.isTrue (congrArg Except.ok h)
    else Decidable.isFalse (fun hh => h (Except.ok.inj hh))

/-- A positioner as _print_positioners probes it: each attribute access
either yields a value or raises an exception, recorded by the name of the
exception class. -/
structure Positioner where
  name : String
  position : Except String ℚ
  precision : Except String ℕ
  limits : Except String (ℚ × ℚ)
  user_offset : Except String ℚ
deriving DecidableEq

/-- The precision used for a row: the positioner precision attribute if it
is readable, else the caller-supplied default. -/
def rowPrec (default_prec : ℕ) (p : Positioner) : ℕ :=
  match p.precision with
  | Except.ok n => n
  | Except.error _ => default_prec

/-- One line of _print_positioners: if reading position raised, the
exception class name is the value and the remaining columns are empty
strings; otherwise limits and user_offset are each tried on their own and
a failure is rendered as the exception class name in that column. -/
structure PosRow where
  pname : String
  value : Cell
  low : Cell
  high : Cell
  offset : Cell
deriving DecidableEq

def positionerRow (default_prec : ℕ) (p : Positioner) : PosRow :=
  match p.position with
  | Except.error e => ⟨p.name, Cell.txt e, Cell.txt "", Cell.txt "", Cell.txt ""⟩
  | Except.ok v =>
    let prec := rowPrec default_prec p
    let lowhigh : Cell × Cell :=
      match p.limits with
      | Except.error e => (Cell.txt e, Cell.txt e)
      | Except.ok lh => (Cell.num (npRound lh.1 prec), Cell.num (npRound lh.2 prec))
    let off : Cell :=
      match p.user_offset with
      | Except.error e => Cell.txt e
      | Except.ok o => Cell.num (npRound o prec)
    ⟨p.name, Cell.num (npRound v prec), lowhigh.1, lowhigh.2, off⟩

/-- The rows printed by _print_positioners: optionally de-duplicate and
sort by name, then render each positioner independently. -/
def printedRows (default_prec : ℕ) (srt : Bool) (ps : List Positioner) : List PosRow :=
  (if srt then (ps.dedup).insertionSort (fun a b => a.name ≤ b.name) else ps).map
    (positionerRow default_prec)

/-- A Python object as get_labeled_devices and is_parent probe it:
whether it is a class (isinstance(dev, type)), its component_names, its
_ophyd_labels_ attribute when present, and its attribute dictionary. -/
inductive PyObj where
  | mk : Bool → List String → Option (List String) → List (String × PyObj) → PyObj

def PyObj.isType : PyObj → Bool
  | PyObj.mk t _ _ _ => t

def PyObj.component_names : PyObj → List String
  | PyObj.mk _ c _ _ => c

def PyObj.ophyd_labels : PyObj → Option (List String)
  | PyObj.mk _ _ l _ => l

def PyObj.dict : PyObj → List (String × PyObj)
  | PyObj.mk _ _ _ d => d

/-- is_parent from magics.py: a class (isinstance(dev, type)) with a
nonempty component_names list. -/
def is_parent (dev : PyObj) : Bool :=
  dev.isType && decide (0 < dev.component_names.length)

/-- A label map: Python dict from label to list of (name, object),
insertion-ordered. -/
abbrev LabelMap := List (String × List (String × PyObj))

/-- defaultdict(list) append: obj_list[label].append(entry). -/
def dictAppend (m : LabelMap) (label : String) (e : String × PyObj) : LabelMap :=
  if m.any (fun x => x.1 = label) then
    m.map (fun x => if x.1 = label then (x.1, x.2 ++ [e]) else x)
  else m ++ [(label, [e])]

/-- Python dict.update: values of existing keys are replaced in place,
new keys are appended in order. -/
def dictUpdate (m other : LabelMap) : LabelMap :=
  other.foldl
    (fun acc kv =>
      if acc.any (fun x => x.1 = kv.1) then
        acc.map (fun x => if x.1 = kv.1 then kv else x)
      else acc ++ [kv])
    m

/-- Whether a name starts with an underscore, i.e. key.startswith("_"),
modelled on the character list of the string. -/
def startsWithUnderscore (s : String) : Bool :=
  match s.data with
  | [] => false
  | c :: _ => c = Char.ofNat 95

/-- get_labeled_devices from magics.py: depth exhausted returns the empty
map (after a warning); otherwise fold over the namespace, skipping names
that start with an underscore, recursing (via dict.update) into objects
that is_parent accepts, and appending leaf objects to the list of each of
their labels. -/
def get_labeled_devices (user_ns : List (String × PyObj)) : ℕ → LabelMap
  | 0 => []
  | maxdepth + 1 =>
    user_ns.foldl
      (fun acc kv =>
        if !startsWithUnderscore kv.1 then
          if is_parent kv.2 then
            dictUpdate acc (get_labeled_devices kv.2.dict maxdepth)
          else
            match kv.2.ophyd_labels with
            | some labels => labels.foldl (fun a l => dictAppend a l kv) acc
            | none => acc
        else acc)
      []

/-- A message list is group-tagged when every set and trigger in it
carries a block_group key. -/
def groupTaggedOk (l : List Msg) : Bool :=
  l.all (fun m =>
    (m.cmd != Command.set && m.cmd != Command.trigger) || m.block_group.isSome)

/-- The adaptive loop diverges from a state when no amount of fuel makes
the run finish. -/
def adaptiveLoopDiverges (p : AParams) (resp : ℕ → List (Option ℚ)) (s : AState) : Prop :=
  ∀ fuel, adaptiveLoop p resp fuel 0 s = none

/-- Lower bound maintained for step throughout the adaptive loop: the
smaller of min_step and the initial step (max_step - min_step) / 2. -/
def stepFloor (p : AParams) : ℚ := min p.min_step ((p.max_step - p.min_step) / 2)

/-- Progress potential of the adaptive loop: next_pos - step.  A backtrack
leaves it unchanged and every other iteration increases it by the step
taken. -/
def phiA (s : AState) : ℚ := s.next_pos - s.step

/-- C1 counterexample parameters: min_step = 4, max_step = 6 (so
min_step ≤ max_step), target_delta = 5, stop = 100. -/
def pC1 : AParams := ⟨4, 6, 5, 100⟩

/-- C1 counterexample readings: 0 on the first iteration, then 1. -/
def respC1 : ℕ → List (Option ℚ) := fun n => if n = 0 then [some 0] else [some 1]

/-- C4 counterexample parameters: min_step = 0, max_step = 2,
target_delta = 0, stop = 10, scanned from position 0. -/
def pC4 : AParams := ⟨0, 2, 0, 10⟩

/-- C4 counterexample readings: the intensity at iteration n reads n, so
consecutive readings always differ. -/
def respC4 : ℕ → List (Option ℚ) := fun n => [some (n : ℚ)]

/-- Reachable-state relation used to show the C4 counterexample run never
leaves the guard: after two iterations the loop is pinned at next_pos = 0
with step = 0. -/
def reachC4 (k : ℕ) (s : AState) : Prop :=
  (k = 0 ∧ s = initAState pC4 0 0)
    ∨ (k = 1 ∧ s = ⟨1, 1, some 0, some 0⟩)
    ∨ (k = 2 ∧ s = ⟨0, 0, some 0, some 1⟩)
    ∨ (∃ y : ℚ, s = ⟨0, 0, some y, some y⟩)

/-- C9 counterexample positioner: reading position raises
DisconnectedError while limits and user_offset would both succeed. -/
def pC9 : Positioner :=
  ⟨"p1", Except.error "DisconnectedError", Except.ok 3, Except.ok (0, 1), Except.ok 2⟩

/-- C8 child device: a non-class leaf labelled motors, no components. -/
def childC8 : PyObj := PyObj.mk false [] (some ["motors"]) []

/-- C8 parent device instance: not a class, one named component a whose
value is the labelled child, and its own label paren. -/
def parentInstC8 : PyObj := PyObj.mk false ["a"] (some ["paren"]) [("a", childC8)]

/-- The same parent but as a class object (isinstance(dev, type) holds). -/
def parentClsC8 : PyObj := PyObj.mk true ["a"] (some ["paren"]) [("a", childC8)]

/-- Namespace holding the parent instance under the name p. -/
def nsInstC8 : List (String × PyObj) := [("p", parentInstC8)]

/-- Namespace holding the parent class under the name p. -/
def nsClsC8 : List (String × PyObj) := [("p", parentClsC8)]

/-! Theorems.  Helper lemmas come first, then one theorem per claim with
its witnesses and counterexamples. -/

lemma adaptiveTrace_succ (p : AParams) (resp : ℕ → List (Option ℚ)) (s0 : AState)
    (n : ℕ) :
    adaptiveTrace p resp s0 (n + 1) =
      if (adaptiveTrace p resp s0 n).next_pos < p.stop then
        adaptiveStep p (resp n) (adaptiveTrace p resp s0 n)
      else adaptiveTrace p resp s0 n := rfl

lemma adaptiveStep_none (p : AParams) (rs : List (Option ℚ)) (pos st : ℚ)
    (cur : Option ℚ) :
    adaptiveStep p rs ⟨pos, st, none, cur⟩ =
      ⟨pos + st, st, newCurI cur rs, newCurI cur rs⟩ := rfl

lemma adaptiveStep_backtrack (p : AParams) (rs : List (Option ℚ)) (pos st q : ℚ)
    (cur : Option ℚ) (h : newStepVal p st (newCurI cur rs) q < st * (8 / 10)) :
    adaptiveStep p rs ⟨pos, st, some q, cur⟩ =
      ⟨pos - st + newStepVal p st (newCurI cur rs) q,
       newStepVal p st (newCurI cur rs) q, some q, newCurI cur rs⟩ := by
  simp only [adaptiveStep]
  rw [if_pos h]

lemma adaptiveStep_accept (p : AParams) (rs : List (Option ℚ)) (pos st q : ℚ)
    (cur : Option ℚ) (h : ¬ newStepVal p st (newCurI cur rs) q < st * (8 / 10)) :
    adaptiveStep p rs ⟨pos, st, some q, cur⟩ =
      ⟨pos + ((2 / 10) * newStepVal p st (newCurI cur rs) q + (8 / 10) * st),
       (2 / 10) * newStepVal p st (newCurI cur rs) q + (8 / 10) * st,
       newCurI cur rs, newCurI cur rs⟩ := by
  simp only [adaptiveStep]
  rw [if_neg h]

lemma newStepVal_bounds (p : AParams) (st : ℚ) (cur : Option ℚ) (q : ℚ) (d : ℚ)
    (hd0 : 0 ≤ d) (hdm : d ≤ p.min_step) (hmm : p.min_step ≤ p.max_step)
    (h1 : d ≤ st) :
    d ≤ newStepVal p st cur q ∧ newStepVal p st cur q ≤ p.max_step := by
  unfold newStepVal clip
  by_cases hs : |cur.getD 0 - q| / st ≠ 0
  · rw [if_pos hs]
    exact ⟨le_min (le_trans hdm (le_max_right _ _)) (le_trans hdm hmm),
      min_le_right _ _⟩
  · rw [if_neg hs]
    refine ⟨le_min ?_ (le_trans hdm hmm), min_le_right _ _⟩
    nlinarith

lemma newCurI_append_single (c : Option ℚ) (rs : List (Option ℚ)) (r : Option ℚ) :
    newCurI c (rs ++ [r]) =
      match r with | some v => some v | none => newCurI c rs := by
  unfold newCurI
  rw [List.foldl_append]
  cases r <;> rfl

lemma newCurI_last (c : Option ℚ) (rs : List (Option ℚ)) :
    newCurI c rs =
      match (rs.filterMap id).getLast? with
      | some v => some v
      | none => c := by
  induction rs using List.reverseRecOn with
  | nil => rfl
  | append_singleton l r ih =>
    rw [newCurI_append_single, List.filterMap_append]
    cases r with
    | none => simpa using ih
    | some v => simp

/-- C10: within one iteration cur_I is taken from the last detector whose
reading contains target_field; when no reading contains it, cur_I keeps
its previous value; and on the first iteration (past_I = None) the
reference past_I is simply set to that cur_I (possibly None) and next_pos
advances by step, with no failure. -/
theorem c10_curI_last_wins (c : Option ℚ) (rs : List (Option ℚ)) (p : AParams)
    (pos st : ℚ) :
    (newCurI c rs =
      match (rs.filterMap id).getLast? with
      | some v => some v
      | none => c)
    ∧ adaptiveStep p rs ⟨pos, st, none, none⟩ =
        ⟨pos + st, st, newCurI none rs, newCurI none rs⟩ := by
  exact ⟨newCurI_last c rs, rfl⟩

/-- C2: after the first iteration and with a positive step, next_pos
decreases exactly when new_step < step * 0.8; a backtrack installs
new_step and keeps the reference; otherwise the reference becomes cur_I,
the step is smoothed to 0.2 * new_step + 0.8 * step, and next_pos
advances by exactly the smoothed step. -/
theorem c2_backtrack_iff (p : AParams) (rs : List (Option ℚ)) (s : AState) (q : ℚ)
    (hpast : s.past_I = some q) (hstep : 0 < s.step) :
    ((adaptiveStep p rs s).next_pos < s.next_pos ↔
      newStepVal p s.step (newCurI s.cur_I rs) q < s.step * (8 / 10))
    ∧ (newStepVal p s.step (newCurI s.cur_I rs) q < s.step * (8 / 10) →
        (adaptiveStep p rs s).step = newStepVal p s.step (newCurI s.cur_I rs) q ∧
        (adaptiveStep p rs s).past_I = s.past_I)
    ∧ (¬ newStepVal p s.step (newCurI s.cur_I rs) q < s.step * (8 / 10) →
        (adaptiveStep p rs s).past_I = newCurI s.cur_I rs ∧
        (adaptiveStep p rs s).step =
          (2 / 10) * newStepVal p s.step (newCurI s.cur_I rs) q + (8 / 10) * s.step ∧
        (adaptiveStep p rs s).next_pos = s.next_pos + (adaptiveStep p rs s).step) := by
  obtain ⟨pos, st, past, cur⟩ := s
  simp only at hstep
  cases hpast
  by_cases hb : newStepVal p st (newCurI cur rs) q < st * (8 / 10)
  · rw [adaptiveStep_backtrack p rs pos st q cur hb]
    refine ⟨⟨fun _ => hb, fun _ => ?_⟩, fun _ => ⟨rfl, rfl⟩, fun hc => absurd hb hc⟩
    simp only
    linarith
  · have hge : st * (8 / 10) ≤ newStepVal p st (newCurI cur rs) q := le_of_not_lt hb
    rw [adaptiveStep_accept p rs pos st q cur hb]
    refine ⟨⟨fun h => ?_, fun h => absurd h hb⟩, fun hc => absurd hc hb,
      fun _ => ⟨rfl, rfl, rfl⟩⟩
    exfalso
    simp only at h
    linarith

/-- Witness for c2_backtrack_iff at p = ⟨1, 3, 1, 10⟩, a state with
past_I = some 0, cur_I = some 0, step = 1, and the reading 1. -/
theorem c2_backtrack_iff_witness :
    (⟨(2 : ℚ), 1, some 0, some 0⟩ : AState).past_I = some 0 ∧
    (0 : ℚ) < (⟨(2 : ℚ), 1, some 0, some 0⟩ : AState).step ∧
    (((adaptiveStep ⟨1, 3, 1, 10⟩ [some 1] ⟨2, 1, some 0, some 0⟩).next_pos <
        (⟨(2 : ℚ), 1, some 0, some 0⟩ : AState).next_pos ↔
      newStepVal ⟨1, 3, 1, 10⟩ 1 (newCurI (some 0) [some 1]) 0 < 1 * (8 / 10))) := by
  refine ⟨rfl, by norm_num, ?_⟩
  exact (c2_backtrack_iff ⟨1, 3, 1, 10⟩ [some 1] ⟨2, 1, some 0, some 0⟩ 0 rfl
    (by norm_num)).1

lemma adaptiveStep_step_bounds (p : AParams) (rs : List (Option ℚ)) (s : AState)
    (d : ℚ) (hd0 : 0 ≤ d) (hdm : d ≤ p.min_step) (hmm : p.min_step ≤ p.max_step)
    (h1 : d ≤ s.step) (h2 : s.step ≤ p.max_step) :
    d ≤ (adaptiveStep p rs s).step ∧ (adaptiveStep p rs s).step ≤ p.max_step := by
  obtain ⟨pos, st, past, cur⟩ := s
  simp only at h1 h2
  cases past with
  | none => exact ⟨h1, h2⟩
  | some q =>
    have hns := newStepVal_bounds p st (newCurI cur rs) q d hd0 hdm hmm h1
    by_cases hb : newStepVal p st (newCurI cur rs) q < st * (8 / 10)
    · rw [adaptiveStep_backtrack p rs pos st q cur hb]
      exact hns
    · rw [adaptiveStep_accept p rs pos st q cur hb]
      simp only
      constructor
      · nlinarith [hns.1]
      · nlinarith [hns.2]

/-- C1 counterexample: with min_step = 4 ≤ max_step = 6 (the hypothesis
the claim assumes) the initial step is (6 - 4) / 2 = 1, and after the
first smoothing update the step is 9/5, strictly below min_step: the
claimed invariant min_step ≤ step fails. -/
theorem c1_counterexample :
    pC1.min_step ≤ pC1.max_step ∧
    (adaptiveTrace pC1 respC1 (initAState pC1 0 0) 2).step < pC1.min_step := by
  have h0 : adaptiveTrace pC1 respC1 (initAState pC1 0 0) 0 = ⟨0, 1, none, none⟩ := by
    norm_num [adaptiveTrace, initAState, pC1, AState.mk.injEq]
  have h1 : adaptiveTrace pC1 respC1 (initAState pC1 0 0) 1 = ⟨1, 1, some 0, some 0⟩ := by
    rw [show (1 : ℕ) = 0 + 1 from rfl, adaptiveTrace_succ, h0]
    norm_num [pC1, adaptiveStep, respC1, newCurI, AState.mk.injEq]
  have h2 : adaptiveTrace pC1 respC1 (initAState pC1 0 0) 2 =
      ⟨14 / 5, 9 / 5, some 1, some 1⟩ := by
    rw [show (2 : ℕ) = 1 + 1 from rfl, adaptiveTrace_succ, h1]
    norm_num [pC1, adaptiveStep, respC1, newCurI, newStepVal, clip, min_def, max_def,
      AState.mk.injEq]
  refine ⟨by norm_num [pC1], ?_⟩
  rw [h2]
  norm_num [pC1]

/-- C1 amended: if additionally 0 < min_step and min_step ≤
(max_step - min_step) / 2 (so the initial step is already in range, which
the counterexample shows is necessary), then min_step ≤ step ≤ max_step
holds at every point of the adaptive loop, for every response stream.
The strict bound 0 < min_step also keeps step positive at every point, so
the slope division is by a nonzero step throughout: the floating-point
0/0 path of the source (which produces nan at step = 0) is unreachable
under these hypotheses. -/
theorem c1_amended (p : AParams) (resp : ℕ → List (Option ℚ)) (start offset : ℚ)
    (h0 : 0 < p.min_step) (h1 : p.min_step ≤ (p.max_step - p.min_step) / 2) (n : ℕ) :
    p.min_step ≤ (adaptiveTrace p resp (initAState p start offset) n).step ∧
    (adaptiveTrace p resp (initAState p start offset) n).step ≤ p.max_step := by
  have hmm : p.min_step ≤ p.max_step := by linarith
  induction n with
  | zero =>
    constructor
    · simpa [adaptiveTrace, initAState] using h1
    · simp only [adaptiveTrace, initAState]
      linarith
  | succ n ih =>
    simp only [adaptiveTrace]
    by_cases hg : (adaptiveTrace p resp (initAState p start offset) n).next_pos < p.stop
    · simp only [hg, if_pos]
      exact adaptiveStep_step_bounds p (resp n) _ p.min_step (le_of_lt h0) le_rfl hmm
        ih.1 ih.2
    · simpa [hg] using ih

/-- Witness for c1_amended with min_step = 1, max_step = 4 and three
iterations. -/
theorem c1_amended_witness :
    (0 : ℚ) < (⟨1, 4, 1, 10⟩ : AParams).min_step ∧
    (⟨1, 4, 1, 10⟩ : AParams).min_step ≤
      ((⟨1, 4, 1, 10⟩ : AParams).max_step - (⟨1, 4, 1, 10⟩ : AParams).min_step) / 2 ∧
    (⟨1, 4, 1, 10⟩ : AParams).min_step ≤
      (adaptiveTrace ⟨1, 4, 1, 10⟩ (fun _ => [some 1])
        (initAState ⟨1, 4, 1, 10⟩ 0 0) 3).step := by
  refine ⟨by norm_num, by norm_num, ?_⟩
  exact (c1_amended ⟨1, 4, 1, 10⟩ (fun _ => [some 1]) 0 0 (by norm_num)
    (by norm_num) 3).1

lemma all_flatMap_true {α β : Type} (f : α → List β) (P : β → Bool) (l : List α)
    (h : ∀ a, (f a).all P = true) : (l.flatMap f).all P = true := by
  induction l with
  | nil => rfl
  | cons a t ih => simp [List.flatMap_cons, List.all_append, h a, ih]

/-- C5: when the initial motor read returns more than one field, Dscan
and AdaptiveDscan stop with NotImplementedError right after the logbook
and read messages, and in particular no set message is ever produced. -/
theorem c5_multi_field_read_errors (motor : String) (dets : List String)
    (steps : List ℚ) (reading : List (String × ℚ)) (h : 1 < reading.length)
    (start stop min_step max_step target_delta : ℚ)
    (resp : ℕ → List (Option ℚ)) (fuel : ℕ) :
    dscanPlanMsgs motor dets steps reading =
      ([logMsg "Dscan", readMsg motor], some "NotImplementedError") ∧
    (∀ m ∈ (dscanPlanMsgs motor dets steps reading).1, m.cmd ≠ Command.set) ∧
    adaptiveDscanPlanMsgs motor dets start stop min_step max_step target_delta
        reading resp fuel =
      some ([logMsg "AdaptiveDscan", readMsg motor], some "NotImplementedError") ∧
    (∀ m ∈ [logMsg "AdaptiveDscan", readMsg motor], m.cmd ≠ Command.set) := by
  have e1 : dscanPlanMsgs motor dets steps reading =
      ([logMsg "Dscan", readMsg motor], some "NotImplementedError") := by
    unfold dscanPlanMsgs
    rw [if_pos h]
  have e2 : adaptiveDscanPlanMsgs motor dets start stop min_step max_step
      target_delta reading resp fuel =
      some ([logMsg "AdaptiveDscan", readMsg motor], some "NotImplementedError") := by
    unfold adaptiveDscanPlanMsgs
    rw [if_pos h]
  refine ⟨e1, ?_, e2, ?_⟩
  · rw [e1]
    intro m hm
    simp only [List.mem_cons, List.not_mem_nil, or_false] at hm
    rcases hm with rfl | rfl
    · simp [logMsg]
    · simp [readMsg]
  · intro m hm
    simp only [List.mem_cons, List.not_mem_nil, or_false] at hm
    rcases hm with rfl | rfl
    · simp [logMsg]
    · simp [readMsg]

/-- Witness for c5_multi_field_read_errors: a two-field motor reading. -/
theorem c5_multi_field_read_errors_witness :
    1 < ([("a", (1 : ℚ)), ("b", 2)]).length ∧
    dscanPlanMsgs "m" ["d"] [0] [("a", 1), ("b", 2)] =
      ([logMsg "Dscan", readMsg "m"], some "NotImplementedError") := by
  refine ⟨by norm_num, ?_⟩
  exact (c5_multi_field_read_errors "m" ["d"] [0] [("a", 1), ("b", 2)]
    (by norm_num) 0 1 1 2 1 (fun _ => []) 0).1

/-- C6: a single-field motor reading of value v makes Dscan delegate to
Scan1D with the caller-supplied steps shifted elementwise by v; for steps
[1, 2, 3] and value 5 the shifted list is [6, 7, 8]. -/
theorem c6_dscan_shifts_steps (motor : String) (dets : List String) (steps : List ℚ)
    (k : String) (v : ℚ) :
    dscanPlanMsgs motor dets steps [(k, v)] =
      ([logMsg "Dscan", readMsg motor]
        ++ scan1DGen motor dets (steps.map (fun x => x + v)), none) ∧
    ([(1 : ℚ), 2, 3].map (fun x => x + 5) = [6, 7, 8]) := by
  constructor
  · unfold dscanPlanMsgs
    rw [if_neg (by norm_num)]
  · norm_num

/-- C3 evidence: in the adaptive scan the set message carries no
block_group key (even though a wait on the group A follows), so the
produced message list violates the tagging contract; the Scan1D and Count
generators, by contrast, tag every set and trigger. -/
theorem c3_adaptive_set_untagged :
    Option.map groupTaggedOk
        (adaptiveAscanPlanMsgs "m" ["d"] 0 1 1 3 1 (fun _ => [some 0]) 1) =
      some false ∧
    setMsgUntagged "m" 0 ∈ adaptiveIterMsgs "m" ["d"] 0 ∧
    (setMsgUntagged "m" 0).block_group = none ∧
    (∀ steps : List ℚ, groupTaggedOk (scan1DGen "m" ["d"] steps) = true) ∧
    (∀ num : ℕ, ∀ delay : ℚ, groupTaggedOk (countGen ["d"] num delay) = true) := by
  have e0 : initAState ⟨1, 3, 1, 1⟩ 0 0 = ⟨0, 1, none, none⟩ := by
    norm_num [initAState, AState.mk.injEq]
  have e1 : adaptiveStep ⟨1, 3, 1, 1⟩ [some 0] ⟨0, 1, none, none⟩ =
      ⟨1, 1, some 0, some 0⟩ := by
    rw [adaptiveStep_none]
    norm_num [newCurI, AState.mk.injEq]
  have e2 : adaptiveMsgs "m" ["d"] ⟨1, 3, 1, 1⟩ (fun _ => [some 0]) 1 0
      ⟨0, 1, none, none⟩ = some (adaptiveIterMsgs "m" ["d"] 0 ++ [deconfigMsg "d"]) := by
    show (if ((⟨0, 1, none, none⟩ : AState)).next_pos < (1 : ℚ) then
        Option.map (fun l => adaptiveIterMsgs "m" ["d"]
            ((⟨0, 1, none, none⟩ : AState)).next_pos ++ l)
          (adaptiveMsgs "m" ["d"] ⟨1, 3, 1, 1⟩ (fun _ => [some 0]) 0 1
            (adaptiveStep ⟨1, 3, 1, 1⟩ ((fun _ => [some 0]) 0) ⟨0, 1, none, none⟩))
      else some (["d"].map deconfigMsg)) = _
    rw [if_pos (by norm_num)]
    have e3 : adaptiveStep ⟨1, 3, 1, 1⟩ ((fun (_ : ℕ) => [some (0 : ℚ)]) 0)
        ⟨0, 1, none, none⟩ = ⟨1, 1, some 0, some 0⟩ := e1
    rw [e3]
    show Option.map _ (if ((⟨1, 1, some 0, some 0⟩ : AState)).next_pos < (1 : ℚ)
        then none else some (["d"].map deconfigMsg)) = _
    rw [if_neg (by norm_num)]
    rfl
  refine ⟨?_, ?_, rfl, ?_, ?_⟩
  · unfold adaptiveAscanPlanMsgs adaptiveGenMsgs
    rw [e0, e2]
    rfl
  · simp [adaptiveIterMsgs]
  · intro steps
    simp only [groupTaggedOk, scan1DGen, List.all_append, Bool.and_eq_true]
    refine ⟨⟨rfl, ?_⟩, rfl⟩
    exact all_flatMap_true (scan1DStepMsgs "m" ["d"]) _ steps (fun a => rfl)
  · intro num delay
    simp only [groupTaggedOk, countGen, List.all_append, Bool.and_eq_true]
    refine ⟨⟨rfl, ?_⟩, rfl⟩
    exact all_flatMap_true _ _ (List.range num) (fun a => rfl)

/-- C8 evidence: a device instance (not a class) with a nonempty
component_names list is not recursed into by get_labeled_devices, because
is_parent additionally requires isinstance(dev, type); its own labels are
attributed to itself and its labelled children are never visited, while
the identical device presented as a class is recursed into; a depth bound
of 0 returns the empty mapping. -/
theorem c8_instance_parent_not_recursed :
    get_labeled_devices nsInstC8 6 = [("paren", [("p", parentInstC8)])] ∧
    get_labeled_devices nsClsC8 6 = [("motors", [("a", childC8)])] ∧
    get_labeled_devices nsInstC8 0 = [] := by
  exact ⟨rfl, rfl, rfl⟩

/-- C9 counterexample: for a positioner whose position read raises
DisconnectedError but whose limits and user_offset reads would succeed,
the row renders empty strings for limits and offset instead of attempting
them: the three fields are not attempted independently. -/
theorem c9_counterexample :
    positionerRow 6 pC9 =
      ⟨"p1", Cell.txt "DisconnectedError", Cell.txt "", Cell.txt "", Cell.txt ""⟩ ∧
    pC9.user_offset = Except.ok 2 ∧
    pC9.limits = Except.ok (0, 1) ∧
    Cell.txt "" ≠ Cell.num (npRound 2 3) := by
  refine ⟨rfl, rfl, rfl, ?_⟩
  intro h
  exact Cell.noConfusion h

/-- C9 amended: when position reads successfully, the limits and offset
columns are attempted independently of each other (changing one never
affects the other) and a failing read is rendered as the exception class
name in its own columns; when position itself fails, its exception class
name is rendered as the value and the remaining columns are rendered as
empty strings without being attempted.  Rows are rendered independently,
one per positioner. -/
theorem c9_amended (d : ℕ) (nm : String) (v : ℚ) (pr : Except String ℕ)
    (L LB : Except String (ℚ × ℚ)) (O OB : Except String ℚ) (e : String) :
    (positionerRow d ⟨nm, Except.ok v, pr, L, O⟩).offset =
      (positionerRow d ⟨nm, Except.ok v, pr, LB, O⟩).offset ∧
    (positionerRow d ⟨nm, Except.ok v, pr, L, O⟩).low =
      (positionerRow d ⟨nm, Except.ok v, pr, L, OB⟩).low ∧
    (positionerRow d ⟨nm, Except.ok v, pr, L, O⟩).high =
      (positionerRow d ⟨nm, Except.ok v, pr, L, OB⟩).high ∧
    (positionerRow d ⟨nm, Except.ok v, pr, Except.error e, O⟩).low = Cell.txt e ∧
    (positionerRow d ⟨nm, Except.ok v, pr, Except.error e, O⟩).high = Cell.txt e ∧
    (positionerRow d ⟨nm, Except.ok v, pr, L, Except.error e⟩).offset = Cell.txt e ∧
    positionerRow d ⟨nm, Except.error e, pr, L, O⟩ =
      ⟨nm, Cell.txt e, Cell.txt "", Cell.txt "", Cell.txt ""⟩ ∧
    (∀ ps : List Positioner, printedRows d false ps = ps.map (positionerRow d)) := by
  refine ⟨?_, ?_, ?_, ?_, ?_, ?_, rfl, fun ps => rfl⟩
  · cases O <;> rfl
  · cases L with
    | error _ => rfl
    | ok lh => rfl
  · cases L with
    | error _ => rfl
    | ok lh => rfl
  · rfl
  · rfl
  · rfl

lemma head?_map {α β : Type} (f : α → β) (l : List α) :
    (l.map f).head? = l.head?.map f := by
  cases l <;> rfl

lemma getLast?_map {α β : Type} (f : α → β) (l : List α) :
    (l.map f).getLast? = l.getLast?.map f := by
  induction l using List.reverseRecOn with
  | nil => rfl
  | append_singleton t a ih =>
    rw [List.map_append]
    simp [List.getLast?_concat]

lemma linspace_length (s e : ℚ) (n : ℕ) : (linspace s e n).length = n := by
  unfold linspace
  by_cases h : n = 1
  · rw [if_pos h, h]
    rfl
  · rw [if_neg h]
    simp

lemma linspace_head (s e : ℚ) (n : ℕ) (h : 2 ≤ n) :
    (linspace s e n).head? = some s := by
  obtain ⟨m, rfl⟩ : ∃ m, n = m + 2 := ⟨n - 2, by omega⟩
  unfold linspace
  rw [if_neg (by omega), List.range_succ_eq_map]
  simp only [List.map_cons, List.head?_cons]
  norm_num

lemma linspace_getLast (s e : ℚ) (n : ℕ) (h : 2 ≤ n) :
    (linspace s e n).getLast? = some e := by
  obtain ⟨m, rfl⟩ : ∃ m, n = m + 2 := ⟨n - 2, by omega⟩
  unfold linspace
  rw [if_neg (by omega), List.range_succ, List.map_append]
  simp only [List.map_cons, List.map_nil, List.getLast?_concat]
  have hne : ((m : ℚ) + 1) ≠ 0 := by positivity
  have hc1 : ((m + 2 : ℕ) : ℚ) - 1 = (m : ℚ) + 1 := by push_cast; ring
  have hc2 : ((m + 1 : ℕ) : ℚ) = (m : ℚ) + 1 := by push_cast; ring
  rw [hc1, hc2, Option.some.injEq]
  field_simp

/-- C7 counterexample: the first value of LogAscan steps for start = 0,
stop = 1, num = 2 is 10 to the power 0, namely 1, not the start value 0:
np.logspace interpolates exponents, not positions. -/
theorem c7_counterexample :
    (logspace 0 1 2).head? = some (1 : ℝ) ∧ (1 : ℝ) ≠ ((0 : ℚ) : ℝ) := by
  constructor
  · unfold logspace
    rw [head?_map, linspace_head 0 1 2 (by norm_num)]
    simp [Real.rpow_zero]
  · norm_num

/-- C7 amended: LogAscan produces num values, the base-10 powers of num
exponents linearly interpolated between start and stop inclusive; the
first value is 10 to the start and the last is 10 to the stop. -/
theorem c7_amended (s e : ℚ) (n : ℕ) (h : 2 ≤ n) :
    (logspace s e n).length = n ∧
    (logspace s e n).head? = some ((10 : ℝ) ^ ((s : ℝ))) ∧
    (logspace s e n).getLast? = some ((10 : ℝ) ^ ((e : ℝ))) := by
  refine ⟨?_, ?_, ?_⟩
  · unfold logspace
    rw [List.length_map]
    exact linspace_length s e n
  · unfold logspace
    rw [head?_map, linspace_head s e n h]
    rfl
  · unfold logspace
    rw [getLast?_map, linspace_getLast s e n h]
    rfl

/-- Witness for c7_amended at start 0, stop 1, num 2. -/
theorem c7_amended_witness :
    2 ≤ 2 ∧ (logspace 0 1 2).length = 2 := by
  exact ⟨le_rfl, (c7_amended 0 1 2 le_rfl).1⟩

lemma adaptiveLoop_zero (p : AParams) (resp : ℕ → List (Option ℚ)) (k : ℕ)
    (s : AState) :
    adaptiveLoop p resp 0 k s = if s.next_pos < p.stop then none else some s := rfl

lemma adaptiveLoop_succ (p : AParams) (resp : ℕ → List (Option ℚ)) (fuel k : ℕ)
    (s : AState) :
    adaptiveLoop p resp (fuel + 1) k s =
      if s.next_pos < p.stop then
        adaptiveLoop p resp fuel (k + 1) (adaptiveStep p (resp k) s)
      else some s := rfl

lemma pinnedStepC4 (x y : ℚ) (c : Option ℚ) :
    adaptiveStep pC4 [some x] ⟨0, 0, some y, c⟩ = ⟨0, 0, some x, some x⟩ := by
  have hcur : newCurI c [some x] = some x := by cases c <;> rfl
  have hns : newStepVal pC4 0 (newCurI c [some x]) y = 0 := by
    rw [hcur]
    unfold newStepVal
    rw [if_neg (by simp [div_zero])]
    norm_num [pC4, min_def]
  rw [adaptiveStep_accept pC4 [some x] 0 0 y c (by rw [hns]; norm_num)]
  rw [hns, hcur]
  norm_num [AState.mk.injEq]

lemma reachC4_guard (k : ℕ) (s : AState) (h : reachC4 k s) :
    s.next_pos < pC4.stop := by
  rcases h with ⟨_, rfl⟩ | ⟨_, rfl⟩ | ⟨_, rfl⟩ | ⟨y, rfl⟩ <;>
    norm_num [initAState, pC4]

lemma reachC4_step (k : ℕ) (s : AState) (h : reachC4 k s) :
    reachC4 (k + 1) (adaptiveStep pC4 (respC4 k) s) := by
  rcases h with ⟨hk, rfl⟩ | ⟨hk, rfl⟩ | ⟨hk, rfl⟩ | ⟨y, rfl⟩
  · subst hk
    refine Or.inr (Or.inl ⟨rfl, ?_⟩)
    rw [show initAState pC4 0 0 = ⟨0, 1, none, none⟩ from by
      norm_num [initAState, pC4, AState.mk.injEq]]
    rw [adaptiveStep_none]
    norm_num [respC4, newCurI, AState.mk.injEq]
  · subst hk
    refine Or.inr (Or.inr (Or.inl ⟨rfl, ?_⟩))
    have hcur : newCurI (some 0) (respC4 1) = some 1 := by
      norm_num [respC4, newCurI]
    have hns : newStepVal pC4 1 (newCurI (some 0) (respC4 1)) 0 = 0 := by
      rw [hcur]
      unfold newStepVal
      rw [if_pos (by norm_num)]
      norm_num [pC4, clip, min_def, max_def]
    rw [adaptiveStep_backtrack pC4 (respC4 1) 1 1 0 (some 0) (by rw [hns]; norm_num)]
    rw [hns, hcur]
    norm_num [AState.mk.injEq]
  · subst hk
    refine Or.inr (Or.inr (Or.inr ⟨2, ?_⟩))
    have : respC4 2 = [some 2] := by norm_num [respC4]
    rw [this, pinnedStepC4]
  · refine Or.inr (Or.inr (Or.inr ⟨(k : ℚ), ?_⟩))
    have : respC4 k = [some (k : ℚ)] := rfl
    rw [this, pinnedStepC4]

lemma reachC4_none : ∀ fuel k (s : AState), reachC4 k s →
    adaptiveLoop pC4 respC4 fuel k s = none := by
  intro fuel
  induction fuel with
  | zero =>
    intro k s h
    rw [adaptiveLoop_zero, if_pos (reachC4_guard k s h)]
  | succ n ih =>
    intro k s h
    rw [adaptiveLoop_succ, if_pos (reachC4_guard k s h)]
    exact ih (k + 1) _ (reachC4_step k s h)

/-- C4 counterexample: with min_step = 0, max_step = 2, target_delta = 0,
start = 0, stop = 10 and detector readings 0, 1, 2, ... the adaptive
while-loop reaches next_pos = 0 with step = 0 after two iterations and
stays there: no fuel ever completes the run, so the message sequence is
infinite. -/
theorem c4_counterexample : adaptiveLoopDiverges pC4 respC4 (initAState pC4 0 0) :=
  fun fuel => reachC4_none fuel 0 _ (Or.inl ⟨rfl, rfl⟩)

lemma stepFloor_pos (p : AParams) (h0 : 0 < p.min_step)
    (hmm : p.min_step < p.max_step) : 0 < stepFloor p := by
  refine lt_min h0 ?_
  linarith

lemma exists_pow54_ge (a b : ℚ) (ha : 0 < a) : ∃ n : ℕ, b ≤ a * (5 / 4) ^ n := by
  obtain ⟨n, hn⟩ := pow_unbounded_of_one_lt (b / a) (show (1 : ℚ) < 5 / 4 by norm_num)
  refine ⟨n, ?_⟩
  rw [div_lt_iff₀ ha] at hn
  nlinarith

lemma backtrack_new_step_ge_min (p : AParams) (st : ℚ) (cur : Option ℚ) (q : ℚ)
    (hst : 0 < st) (hsmax : st ≤ p.max_step) (hmm : p.min_step ≤ p.max_step)
    (hb : newStepVal p st cur q < st * (8 / 10)) :
    p.min_step ≤ newStepVal p st cur q := by
  unfold newStepVal at hb ⊢
  by_cases hs : |cur.getD 0 - q| / st ≠ 0
  · rw [if_pos hs] at hb ⊢
    exact le_min (le_max_right _ _) hmm
  · rw [if_neg hs] at hb
    exfalso
    rcases min_lt_iff.mp hb with h1 | h1
    · nlinarith
    · nlinarith

lemma adaptiveStep_phi (p : AParams) (rs : List (Option ℚ)) (s : AState)
    (hst : 0 < s.step) (hsmax : s.step ≤ p.max_step) (hmm : p.min_step ≤ p.max_step) :
    phiA (adaptiveStep p rs s) = phiA s + s.step ∨
    (phiA (adaptiveStep p rs s) = phiA s ∧
      p.min_step ≤ (adaptiveStep p rs s).step ∧
      (adaptiveStep p rs s).step < s.step * (8 / 10)) := by
  obtain ⟨pos, st, past, cur⟩ := s
  simp only at hst hsmax
  cases past with
  | none =>
    left
    rw [adaptiveStep_none]
    unfold phiA
    simp only
    ring
  | some q =>
    by_cases hb : newStepVal p st (newCurI cur rs) q < st * (8 / 10)
    · right
      rw [adaptiveStep_backtrack p rs pos st q cur hb]
      refine ⟨?_, ?_, ?_⟩
      · unfold phiA
        simp only
        ring
      · exact backtrack_new_step_ge_min p st (newCurI cur rs) q hst hsmax hmm hb
      · exact hb
    · left
      rw [adaptiveStep_accept p rs pos st q cur hb]
      unfold phiA
      simp only
      ring

lemma adaptive_term_done (p : AParams) (resp : ℕ → List (Option ℚ)) (k : ℕ)
    (s : AState) (hg : ¬ s.next_pos < p.stop) :
    ∃ fuel, (adaptiveLoop p resp fuel k s).isSome = true := by
  refine ⟨0, ?_⟩
  rw [adaptiveLoop_zero, if_neg hg]
  rfl

lemma adaptive_term_step (p : AParams) (resp : ℕ → List (Option ℚ)) (k : ℕ)
    (s : AState) (hg : s.next_pos < p.stop)
    (h : ∃ fuel, (adaptiveLoop p resp fuel (k + 1) (adaptiveStep p (resp k) s)).isSome
        = true) :
    ∃ fuel, (adaptiveLoop p resp fuel k s).isSome = true := by
  obtain ⟨f, hf⟩ := h
  refine ⟨f + 1, ?_⟩
  rw [adaptiveLoop_succ, if_pos hg]
  exact hf

lemma adaptive_term_bt (p : AParams) (resp : ℕ → List (Option ℚ))
    (h0 : 0 < p.min_step) (hmm : p.min_step < p.max_step) :
    ∀ n k (s : AState),
      stepFloor p ≤ s.step → s.step ≤ p.max_step →
      s.step ≤ p.min_step * (5 / 4) ^ n →
      (∀ k2 (s2 : AState), stepFloor p ≤ s2.step → s2.step ≤ p.max_step →
        phiA s + stepFloor p ≤ phiA s2 →
        ∃ fuel, (adaptiveLoop p resp fuel k2 s2).isSome = true) →
      ∃ fuel, (adaptiveLoop p resp fuel k s).isSome = true := by
  intro n
  induction n with
  | zero =>
    intro k s h1 h2 h3 cont
    by_cases hg : s.next_pos < p.stop
    · have hfl := stepFloor_pos p h0 hmm
      have hst : 0 < s.step := lt_of_lt_of_le hfl h1
      have hinv := adaptiveStep_step_bounds p (resp k) s (stepFloor p)
        (le_of_lt hfl) (min_le_left _ _) (le_of_lt hmm) h1 h2
      rcases adaptiveStep_phi p (resp k) s hst h2 (le_of_lt hmm) with hL | ⟨_, hmin, hshrink⟩
      · refine adaptive_term_step p resp k s hg (cont (k + 1) _ hinv.1 hinv.2 ?_)
        rw [hL]
        linarith
      · exfalso
        have h3x : s.step ≤ p.min_step := by simpa using h3
        nlinarith
    · exact adaptive_term_done p resp k s hg
  | succ n ih =>
    intro k s h1 h2 h3 cont
    by_cases hg : s.next_pos < p.stop
    · have hfl := stepFloor_pos p h0 hmm
      have hst : 0 < s.step := lt_of_lt_of_le hfl h1
      have hinv := adaptiveStep_step_bounds p (resp k) s (stepFloor p)
        (le_of_lt hfl) (min_le_left _ _) (le_of_lt hmm) h1 h2
      rcases adaptiveStep_phi p (resp k) s hst h2 (le_of_lt hmm) with hL | ⟨hE, hmin, hshrink⟩
      · refine adaptive_term_step p resp k s hg (cont (k + 1) _ hinv.1 hinv.2 ?_)
        rw [hL]
        linarith
      · refine adaptive_term_step p resp k s hg
          (ih (k + 1) _ hinv.1 hinv.2 ?_ ?_)
        · have hpow : (5 / 4 : ℚ) ^ (n + 1) * (8 / 10) = (5 / 4) ^ n := by
            rw [pow_succ]
            ring
          have hpos : (0 : ℚ) < (5 / 4) ^ (n + 1) := by positivity
          nlinarith
        · intro k2 s2 g1 g2 gphi
          refine cont k2 s2 g1 g2 ?_
          rw [hE] at gphi
          exact gphi
    · exact adaptive_term_done p resp k s hg

lemma adaptive_term_phi (p : AParams) (resp : ℕ → List (Option ℚ))
    (h0 : 0 < p.min_step) (hmm : p.min_step < p.max_step) :
    ∀ m : ℕ, ∀ k (s : AState),
      stepFloor p ≤ s.step → s.step ≤ p.max_step →
      p.stop - phiA s ≤ m * stepFloor p →
      ∃ fuel, (adaptiveLoop p resp fuel k s).isSome = true := by
  intro m
  induction m with
  | zero =>
    intro k s h1 h2 hm
    have hfl := stepFloor_pos p h0 hmm
    have hst : 0 < s.step := lt_of_lt_of_le hfl h1
    refine adaptive_term_done p resp k s ?_
    have hphi : p.stop ≤ s.next_pos - s.step := by
      unfold phiA at hm
      push_cast at hm
      linarith
    exact not_lt.mpr (by linarith)
  | succ m ih =>
    intro k s h1 h2 hm
    obtain ⟨n, hn⟩ := exists_pow54_ge p.min_step p.max_step h0
    refine adaptive_term_bt p resp h0 hmm n k s h1 h2 (le_trans h2 hn) ?_
    intro k2 s2 g1 g2 gphi
    refine ih k2 s2 g1 g2 ?_
    have hc : ((m + 1 : ℕ) : ℚ) = (m : ℚ) + 1 := by push_cast; ring
    rw [hc] at hm
    linarith

lemma adaptiveMsgs_isSome (motor : String) (dets : List String) (p : AParams)
    (resp : ℕ → List (Option ℚ)) :
    ∀ fuel k (s : AState),
      (adaptiveMsgs motor dets p resp fuel k s).isSome =
        (adaptiveLoop p resp fuel k s).isSome := by
  intro fuel
  induction fuel with
  | zero =>
    intro k s
    show (if s.next_pos < p.stop then (none : Option (List Msg))
        else some (dets.map deconfigMsg)).isSome =
      (if s.next_pos < p.stop then (none : Option AState) else some s).isSome
    by_cases hg : s.next_pos < p.stop
    · rw [if_pos hg, if_pos hg]
      rfl
    · rw [if_neg hg, if_neg hg]
      rfl
  | succ n ih =>
    intro k s
    show (if s.next_pos < p.stop then
        Option.map (fun l => adaptiveIterMsgs motor dets s.next_pos ++ l)
          (adaptiveMsgs motor dets p resp n (k + 1) (adaptiveStep p (resp k) s))
      else some (dets.map deconfigMsg)).isSome =
      (if s.next_pos < p.stop then
        adaptiveLoop p resp n (k + 1) (adaptiveStep p (resp k) s)
      else some s).isSome
    by_cases hg : s.next_pos < p.stop
    · rw [if_pos hg, if_pos hg]
      rw [← ih (k + 1) (adaptiveStep p (resp k) s)]
      cases adaptiveMsgs motor dets p resp n (k + 1) (adaptiveStep p (resp k) s) <;> rfl
    · rw [if_neg hg, if_neg hg]
      rfl

/-- C4 amended: Count produces a message list of fixed finite length, and
the adaptive loop terminates for every response stream provided
0 < min_step < max_step; the counterexample shows the unrestricted claim
fails at min_step = 0. -/
theorem c4_amended (motor : String) (dets : List String) (p : AParams)
    (resp : ℕ → List (Option ℚ)) (start offset : ℚ)
    (h0 : 0 < p.min_step) (hmm : p.min_step < p.max_step) :
    (∃ fuel, (adaptiveGenMsgs motor dets p resp fuel
        (initAState p start offset)).isSome = true) ∧
    (∀ dets2 : List String, ∀ num : ℕ, ∀ delay : ℚ,
      (countGen dets2 num delay).length =
        2 * dets2.length + num * (4 + 3 * dets2.length)) := by
  constructor
  · have hfl := stepFloor_pos p h0 hmm
    have init1 : stepFloor p ≤ (initAState p start offset).step := min_le_right _ _
    have init2 : (initAState p start offset).step ≤ p.max_step := by
      show (p.max_step - p.min_step) / 2 ≤ p.max_step
      linarith
    obtain ⟨m, hm⟩ := exists_nat_ge ((p.stop - phiA (initAState p start offset)) /
      stepFloor p)
    have hm2 : p.stop - phiA (initAState p start offset) ≤ m * stepFloor p := by
      rw [div_le_iff₀ hfl] at hm
      linarith
    obtain ⟨fuel, hf⟩ := adaptive_term_phi p resp h0 hmm m 0 _ init1 init2 hm2
    refine ⟨fuel, ?_⟩
    unfold adaptiveGenMsgs
    rw [show ∀ o : Option (List Msg), (Option.map (fun l => dets.map cfgMsg ++ l)
        o).isSome = o.isSome from fun o => by cases o <;> rfl]
    rw [adaptiveMsgs_isSome]
    exact hf
  · intro dets2 num delay
    unfold countGen
    rw [List.length_append, List.length_append, List.length_map, List.length_map]
    have hbody : ∀ i : ℕ, ([checkpointMsg, createMsg]
        ++ dets2.map (fun d => triggerMsg d "A")
        ++ dets2.map (fun _ => waitMsg "A")
        ++ dets2.map readMsg
        ++ [saveMsg, sleepMsg delay]).length = 4 + 3 * dets2.length := by
      intro i
      simp only [List.length_append, List.length_map, List.length_cons,
        List.length_nil]
      ring
    have hflat : ((List.range num).flatMap (fun _ => [checkpointMsg, createMsg]
        ++ dets2.map (fun d => triggerMsg d "A")
        ++ dets2.map (fun _ => waitMsg "A")
        ++ dets2.map readMsg
        ++ [saveMsg, sleepMsg delay])).length = num * (4 + 3 * dets2.length) := by
      induction num with
      | zero => simp
      | succ n ih =>
        rw [List.range_succ, List.flatMap_append, List.length_append, ih]
        simp only [List.flatMap_cons, List.flatMap_nil, List.append_nil]
        rw [hbody n]
        ring
    rw [hflat]
    ring

/-- Witness for c4_amended: a concrete adaptive scan with min_step = 1,
max_step = 3 terminates, and a two-detector count of three readings
produces 26 messages. -/
theorem c4_amended_witness :
    (0 : ℚ) < (⟨1, 3, 1, 10⟩ : AParams).min_step ∧
    (⟨1, 3, 1, 10⟩ : AParams).min_step < (⟨1, 3, 1, 10⟩ : AParams).max_step ∧
    (∃ fuel, (adaptiveGenMsgs "m" ["d"] ⟨1, 3, 1, 10⟩ (fun _ => [some 0]) fuel
        (initAState ⟨1, 3, 1, 10⟩ 0 0)).isSome = true) ∧
    (countGen ["d1", "d2"] 3 0).length = 2 * 2 + 3 * (4 + 3 * 2) := by
  refine ⟨by norm_num, by norm_num, ?_, ?_⟩
  · exact (c4_amended "m" ["d"] ⟨1, 3, 1, 10⟩ (fun _ => [some 0]) 0 0
      (by norm_num) (by norm_num)).1
  · exact (c4_amended "m" ["d"] ⟨1, 3, 1, 10⟩ (fun _ => [some 0]) 0 0
      (by norm_num) (by norm_num)).2 ["d1", "d2"] 3 0

end Bluesky
